import Mathlib

/-!
Verification of the email-campaign tracking and import backend
(`routes/email_send_import.py`, `routes/email_tracking.py`, `app.py`).

The Python code is shallowly embedded as executable Lean definitions:

* Python strings are `String`; `str.strip`, `str.lower`, `str.upper` are
  modelled character-wise on ASCII (`pyStrip`, `pyLower`, `pyUpper`); the
  repository only ever feeds email addresses, campaign-type tags and fixed
  markers through them.
* `datetime` values are the structure `DateTime` (calendar fields plus
  microseconds); `strftime "%Y-%m-%d %H:%M:%S"` is `DateTime.strftimeSec`.
* The MD5 hex digest in `make_dedupe_key` is modelled by `md5hexModel`, a
  collision-free stand-in (the identity on the raw concatenation).  Every
  property about the key is thereby a property about the hash INPUT, which
  is exactly the "modulo hash collision" reading of the specification.
* The MySQL tables are in-memory lists; the import request is the pure
  function `doImportF` (state in, state plus counters out), a failed
  request returning the unchanged state models `conn.rollback()`.
-/

/-- Python `str.isspace` characters relevant to `str.strip()` (ASCII set). -/
def pyIsSpace (c : Char) : Bool :=
  c = ' ' || c = '\t' || c = '\n' || c = '\r' || c = '\x0b' || c = '\x0c'

/-- Python `str.strip()`: drop leading and trailing whitespace. -/
def pyStrip (s : String) : String :=
  String.mk (((s.data.dropWhile pyIsSpace).reverse.dropWhile pyIsSpace).reverse)

/-- ASCII lower-casing of one character (Python `str.lower` on the ASCII range). -/
def pyLowerChar (c : Char) : Char :=
  if 'A' ≤ c ∧ c ≤ 'Z' then Char.ofNat (c.toNat + 32) else c

/-- ASCII upper-casing of one character (Python `str.upper` on the ASCII range). -/
def pyUpperChar (c : Char) : Char :=
  if 'a' ≤ c ∧ c ≤ 'z' then Char.ofNat (c.toNat - 32) else c

/-- Python `str.lower()` (ASCII model). -/
def pyLower (s : String) : String := String.mk (s.data.map pyLowerChar)

/-- Python `str.upper()` (ASCII model). -/
def pyUpper (s : String) : String := String.mk (s.data.map pyUpperChar)

/-- `norm_email` from both route modules: `(val or "").strip().lower()`. -/
def norm_email (val : String) : String := pyLower (pyStrip val)

/-- `norm_text`: `(val or "").strip()`, and `None` when the result is empty. -/
def norm_text (val : String) : Option String :=
  let s := pyStrip val
  if s = "" then none else some s

/-- The campaign-type normalisation applied by the upload route:
`(request.form.get("email_type") or "").strip().upper()`. -/
def normType (val : String) : String := pyUpper (pyStrip val)

/-- A `datetime` value: calendar fields to second precision plus microseconds. -/
structure DateTime where
  year : Nat
  month : Nat
  day : Nat
  hour : Nat
  minute : Nat
  second : Nat
  usec : Nat
deriving DecidableEq

/-- Side conditions guaranteed by Python's `datetime` constructor (a valid
calendar date; years below 1000 never occur in the import data and are
excluded so that `%Y` is the plain four-digit rendering). -/
def DateTime.Valid (t : DateTime) : Prop :=
  1000 ≤ t.year ∧ t.year ≤ 9999 ∧ 1 ≤ t.month ∧ t.month ≤ 12 ∧
  1 ≤ t.day ∧ t.day ≤ 31 ∧ t.hour ≤ 23 ∧ t.minute ≤ 59 ∧ t.second ≤ 59

instance (t : DateTime) : Decidable t.Valid := by
  unfold DateTime.Valid; infer_instance

/-- Truncation of a `datetime` to whole seconds (drop the microseconds). -/
def DateTime.truncSec (t : DateTime) : DateTime :=
  { t with usec := 0 }

/-- The decimal digit character for `n % 10`-sized inputs. -/
def digitChar (n : Nat) : Char := Char.ofNat (48 + n)

/-- Two-digit zero-padded rendering (`%m`, `%d`, `%H`, `%M`, `%S`). -/
def fmt2 (n : Nat) : List Char := [digitChar (n / 10), digitChar (n % 10)]

/-- Four-digit zero-padded rendering (`%Y` for four-digit years). -/
def fmt4 (n : Nat) : List Char :=
  [digitChar (n / 1000), digitChar (n / 100 % 10), digitChar (n / 10 % 10), digitChar (n % 10)]

/-- `sent_at.strftime("%Y-%m-%d %H:%M:%S")`. -/
def DateTime.strftimeSec (t : DateTime) : String :=
  String.mk (fmt4 t.year ++ '-' :: fmt2 t.month ++ '-' :: fmt2 t.day ++
    ' ' :: fmt2 t.hour ++ ':' :: fmt2 t.minute ++ ':' :: fmt2 t.second)

/-- Stand-in for `hashlib.md5(raw.encode("utf-8")).hexdigest()`: a
collision-free model of the digest (the identity on the raw input), so that
statements about key equality are statements about the hash input — the
"modulo hash collision" reading of the specification. -/
def md5hexModel (raw : String) : String := raw

/-- The raw string hashed by `make_dedupe_key`:
`"|".join([sender.strip().lower(), receiver.strip().lower(), email_type.strip().upper(), sent])`. -/
def dedupeRaw (sender receiver : String) (t : DateTime) (email_type : String) : String :=
  String.intercalate "|"
    [pyLower (pyStrip sender), pyLower (pyStrip receiver), pyUpper (pyStrip email_type),
     t.strftimeSec]

/-- The digest produced for a row that has a parsed `sent_at`. -/
def dedupeDigest (sender receiver : String) (t : DateTime) (email_type : String) : String :=
  md5hexModel (dedupeRaw sender receiver t email_type)

/-- `make_dedupe_key` from `email_send_import.py` (returns `None` when
`sent_at` is missing). -/
def make_dedupe_key (sender receiver : String) (sent_at : Option DateTime)
    (email_type : String) : Option String :=
  match sent_at with
  | none => none
  | some t => some (dedupeDigest sender receiver t email_type)

/-- Modelled from the spec (§4.1 and C3): the key derivation as the spec words
it — a digest over the concatenation of the four fields, EACH normalised by
lowercasing and trimming, the timestamp formatted to second precision. -/
def make_dedupe_key_specLowerAll (sender receiver : String) (sent_at : Option DateTime)
    (email_type : String) : Option String :=
  match sent_at with
  | none => none
  | some t =>
      some (md5hexModel
        (pyLower (pyStrip sender) ++ "|" ++ pyLower (pyStrip receiver) ++ "|" ++
         pyLower (pyStrip email_type) ++ "|" ++ t.strftimeSec))

/-- The amended wording of C3: sender and receiver are lowercased and trimmed,
the campaign-type is trimmed and UPPERcased, the timestamp is formatted to
second precision, and the digest is taken over the `"|"`-joined concatenation. -/
def make_dedupe_key_specUpperType (sender receiver : String) (sent_at : Option DateTime)
    (email_type : String) : Option String :=
  match sent_at with
  | none => none
  | some t =>
      some (md5hexModel
        (pyLower (pyStrip sender) ++ "|" ++ pyLower (pyStrip receiver) ++ "|" ++
         pyUpper (pyStrip email_type) ++ "|" ++ t.strftimeSec))

/-- A fixed timestamp used by concrete evaluations. -/
def dtEx : DateTime := ⟨2024, 1, 2, 3, 4, 5, 0⟩

example : make_dedupe_key "  A@x.com" "b@y.com " (some dtEx) "goly" =
    some "a@x.com|b@y.com|GOLY|2024-01-02 03:04:05" := by decide

/-! ### Structure of the raw dedupe string -/

theorem intercalate_four (a b c d : String) :
    String.intercalate "|" [a, b, c, d] = a ++ "|" ++ b ++ "|" ++ c ++ "|" ++ d := rfl

theorem dedupeRaw_eq (sender receiver : String) (t : DateTime) (email_type : String) :
    dedupeRaw sender receiver t email_type =
      pyLower (pyStrip sender) ++ "|" ++ pyLower (pyStrip receiver) ++ "|" ++
      pyUpper (pyStrip email_type) ++ "|" ++ t.strftimeSec := by
  unfold dedupeRaw
  exact intercalate_four _ _ _ _

/-- Splitting a separator-joined pair of character lists is unambiguous as long
as the left components avoid the separator. -/
theorem append_bar_injective :
    ∀ (a b t u : List Char), '|' ∉ a → '|' ∉ b →
      a ++ '|' :: t = b ++ '|' :: u → a = b ∧ t = u := by
  intro a
  induction a with
  | nil =>
    intro b t u _ hb h
    cases b with
    | nil => simpa using h
    | cons y ys =>
      rw [List.nil_append, List.cons_append] at h
      obtain ⟨h1, _⟩ := List.cons.inj h
      exact absurd (h1 ▸ List.mem_cons_self y ys) hb
  | cons x xs ih =>
    intro b t u ha hb h
    cases b with
    | nil =>
      rw [List.cons_append, List.nil_append] at h
      obtain ⟨h1, _⟩ := List.cons.inj h
      exact absurd (h1 ▸ List.mem_cons_self x xs) ha
    | cons y ys =>
      rw [List.cons_append, List.cons_append] at h
      obtain ⟨h1, h2⟩ := List.cons.inj h
      have hrec := ih ys t u (fun hm => ha (List.mem_cons_of_mem _ hm))
        (fun hm => hb (List.mem_cons_of_mem _ hm)) h2
      exact ⟨by rw [h1, hrec.1], hrec.2⟩

theorem digitChar_injOn : ∀ m, m < 10 → ∀ n, n < 10 → digitChar m = digitChar n → m = n := by
  decide

theorem digitChar_ne_bar : ∀ n, n < 10 → digitChar n ≠ '|' := by decide

/-- The timestamp rendering contains no `'|'` separator. -/
theorem strftimeSec_bar_free (t : DateTime) (hv : t.Valid) :
    '|' ∉ t.strftimeSec.data := by
  obtain ⟨hy1, hy2, hm1, hm2, hd1, hd2, hh, hmi, hs⟩ := hv
  intro hmem
  simp only [DateTime.strftimeSec, fmt4, fmt2, List.cons_append, List.nil_append,
    List.mem_cons, List.not_mem_nil, or_false] at hmem
  rcases hmem with h | h | h | h | h | h | h | h | h | h | h | h | h | h | h | h | h | h | h <;>
    first
      | exact absurd h.symm (by decide)
      | exact absurd h.symm (digitChar_ne_bar _ (by omega))

@[simp] theorem data_mk_eq (l : List Char) : (String.mk l).data = l := rfl

theorem strftimeSec_inj (t1 t2 : DateTime) (hv1 : t1.Valid) (hv2 : t2.Valid)
    (h : t1.strftimeSec = t2.strftimeSec) : t1.truncSec = t2.truncSec := by
  obtain ⟨hy1, hy2, hm1, hm2, hd1, hd2, hh, hmi, hs⟩ := hv1
  obtain ⟨gy1, gy2, gm1, gm2, gd1, gd2, gh, gmi, gs⟩ := hv2
  replace h := congrArg String.data h
  simp only [DateTime.strftimeSec, fmt4, fmt2, List.cons_append, List.nil_append,
    data_mk_eq, List.cons.injEq, and_true] at h
  obtain ⟨y1, y2, y3, y4, -, m1, m2, -, d1, d2, -, h1, h2, -, i1, i2, -, s1, s2⟩ := h
  have ey : t1.year = t2.year := by
    have e1 := digitChar_injOn _ (by omega) _ (by omega) y1
    have e2 := digitChar_injOn _ (by omega) _ (by omega) y2
    have e3 := digitChar_injOn _ (by omega) _ (by omega) y3
    have e4 := digitChar_injOn _ (by omega) _ (by omega) y4
    omega
  have em : t1.month = t2.month := by
    have e1 := digitChar_injOn _ (by omega) _ (by omega) m1
    have e2 := digitChar_injOn _ (by omega) _ (by omega) m2
    omega
  have ed : t1.day = t2.day := by
    have e1 := digitChar_injOn _ (by omega) _ (by omega) d1
    have e2 := digitChar_injOn _ (by omega) _ (by omega) d2
    omega
  have eh : t1.hour = t2.hour := by
    have e1 := digitChar_injOn _ (by omega) _ (by omega) h1
    have e2 := digitChar_injOn _ (by omega) _ (by omega) h2
    omega
  have ei : t1.minute = t2.minute := by
    have e1 := digitChar_injOn _ (by omega) _ (by omega) i1
    have e2 := digitChar_injOn _ (by omega) _ (by omega) i2
    omega
  have es : t1.second = t2.second := by
    have e1 := digitChar_injOn _ (by omega) _ (by omega) s1
    have e2 := digitChar_injOn _ (by omega) _ (by omega) s2
    omega
  simp [DateTime.truncSec, ey, em, ed, eh, ei, es]

theorem strftimeSec_truncSec (t : DateTime) : t.truncSec.strftimeSec = t.strftimeSec := rfl

@[simp] theorem data_bar : ("|" : String).data = ['|'] := rfl

theorem dedupeRaw_norm (sender receiver : String) (t : DateTime) (email_type : String) :
    dedupeRaw sender receiver t email_type =
      norm_email sender ++ "|" ++ norm_email receiver ++ "|" ++
      normType email_type ++ "|" ++ t.strftimeSec :=
  dedupeRaw_eq sender receiver t email_type

/-- C3 counterexample: at campaign-type `"Goly"` the key the code derives
(upper-cased type) differs from the key the spec describes (all four fields
lowercased), so the claim "the key derivation lowercases all four fields,
including the campaign-type" is false. -/
theorem make_dedupe_key_ne_specLowerAll :
    make_dedupe_key "a@x.com" "b@y.com" (some dtEx) "Goly" ≠
      make_dedupe_key_specLowerAll "a@x.com" "b@y.com" (some dtEx) "Goly" := by
  decide

/-- C3 (amended): the dedupe key is the digest of the `"|"`-joined
concatenation of sender and receiver (each trimmed and lowercased), the
campaign-type (trimmed and UPPERcased), and the send timestamp formatted to
second precision. -/
theorem make_dedupe_key_eq_specUpperType :
    ∀ (sender receiver : String) (sent_at : Option DateTime) (email_type : String),
      make_dedupe_key sender receiver sent_at email_type =
        make_dedupe_key_specUpperType sender receiver sent_at email_type := by
  intro sender receiver sent_at email_type
  cases sent_at with
  | none => rfl
  | some t =>
    simp only [make_dedupe_key, make_dedupe_key_specUpperType, dedupeDigest, md5hexModel,
      Option.some.injEq]
    exact dedupeRaw_eq sender receiver t email_type

/-- C2 counterexample: two rows whose normalized senders differ (`"a|b"`
versus `"a"`) nevertheless hash the very same raw string, because the `"|"`
join separator also occurs inside the fields; the keys collide without any
hash collision. -/
theorem dedupe_key_separator_collision :
    norm_email "a|b" ≠ norm_email "a" ∧
    make_dedupe_key "a|b" "c" (some dtEx) "GOLY" =
      make_dedupe_key "a" "b|c" (some dtEx) "GOLY" := by
  decide

/-- C2 (amended): provided the normalized sender, receiver and campaign-type
contain no `"|"` (the join separator) and both timestamps are valid calendar
datetimes, the derived keys are equal exactly when the normalized sender,
receiver, campaign-type and second-truncated send timestamp all agree — so
equal normalized tuples give equal keys, and any difference among the four
fields gives different keys (modulo hash collision, which the digest model
absorbs). -/
theorem dedupe_key_eq_iff_normalized_fields
    (s1 r1 e1 : String) (t1 : DateTime) (s2 r2 e2 : String) (t2 : DateTime)
    (hv1 : t1.Valid) (hv2 : t2.Valid)
    (hs1 : '|' ∉ (norm_email s1).data) (hr1 : '|' ∉ (norm_email r1).data)
    (he1 : '|' ∉ (normType e1).data)
    (hs2 : '|' ∉ (norm_email s2).data) (hr2 : '|' ∉ (norm_email r2).data)
    (he2 : '|' ∉ (normType e2).data) :
    make_dedupe_key s1 r1 (some t1) e1 = make_dedupe_key s2 r2 (some t2) e2 ↔
      (norm_email s1 = norm_email s2 ∧ norm_email r1 = norm_email r2 ∧
       normType e1 = normType e2 ∧ t1.truncSec = t2.truncSec) := by
  constructor
  · intro h
    simp only [make_dedupe_key, Option.some.injEq, dedupeDigest, md5hexModel] at h
    rw [dedupeRaw_norm, dedupeRaw_norm] at h
    replace h := congrArg String.data h
    simp only [String.data_append, data_bar, List.append_assoc, List.singleton_append] at h
    obtain ⟨ea, h⟩ := append_bar_injective _ _ _ _ hs1 hs2 h
    obtain ⟨eb, h⟩ := append_bar_injective _ _ _ _ hr1 hr2 h
    obtain ⟨ec, ed⟩ := append_bar_injective _ _ _ _ he1 he2 h
    exact ⟨String.ext ea, String.ext eb, String.ext ec,
      strftimeSec_inj t1 t2 hv1 hv2 (String.ext ed)⟩
  · rintro ⟨ea, eb, ec, ed⟩
    have et : t1.strftimeSec = t2.strftimeSec := by
      rw [← strftimeSec_truncSec t1, ← strftimeSec_truncSec t2, ed]
    simp only [make_dedupe_key, Option.some.injEq, dedupeDigest, md5hexModel]
    rw [dedupeRaw_norm, dedupeRaw_norm, ea, eb, ec, et]

/-- Witness for C2: concrete rows with the same normalized fields (differing
only in case, surrounding whitespace and microseconds) receive equal keys. -/
theorem dedupe_key_eq_iff_normalized_fields_witness :
    make_dedupe_key "  A@x.com" "B@y.com" (some dtEx) " goly" =
      make_dedupe_key "a@x.com" "b@y.com" (some ⟨2024, 1, 2, 3, 4, 5, 999⟩) "GOLY" :=
  (dedupe_key_eq_iff_normalized_fields "  A@x.com" "B@y.com" " goly" dtEx
    "a@x.com" "b@y.com" "GOLY" ⟨2024, 1, 2, 3, 4, 5, 999⟩
    (by decide) (by decide) (by decide) (by decide) (by decide)
    (by decide) (by decide) (by decide)).mpr (by decide)

/-! ### The subscription-preference table

`email_subscription_preferences` carries a unique key on
`(sender_email, receiver_email)` (all writers in the repository use
`INSERT ... ON DUPLICATE KEY UPDATE` on that pair, and always with normalized
emails), so the table is modelled as an association list from the normalized
pair to `is_subscribed`; the route's `ORDER BY updated_at DESC LIMIT 1` read
then reduces to the association-list lookup. -/

abbrev PrefKey := String × String

abbrev Prefs := List (PrefKey × Bool)

/-- `INSERT ... ON DUPLICATE KEY UPDATE` into the preference table. -/
def upsertPref (ps : Prefs) (k : PrefKey) (v : Bool) : Prefs :=
  match ps with
  | [] => [(k, v)]
  | (k0, v0) :: rest => if k0 = k then (k, v) :: rest else (k0, v0) :: upsertPref rest k v

/-- The `SELECT is_subscribed ... LIMIT 1` read of the preference table. -/
def lookupPref (ps : Prefs) (k : PrefKey) : Option Bool :=
  match ps with
  | [] => none
  | (k0, v0) :: rest => if k0 = k then some v0 else lookupPref rest k

/-- `is_unsubscribe_response` from `email_send_import.py`. -/
def is_unsubscribe_response (responds : Option String) : Bool :=
  match responds with
  | none => false
  | some v =>
      if pyLower (pyStrip v) = "unsubscribed" ∨ pyLower (pyStrip v) = "not interested"
      then true else false

/-! ### The send-log table and the import pipeline -/

/-- One spreadsheet row after the ten expected columns have been read (the
cells are strings after `fillna("")`); `sentAt` carries the result of
`parse_sent_at` on the `SentAt` cell — the textual datetime parsing itself
(four `strptime` formats plus the pandas fallback) is elided, `none` meaning
"not parseable". -/
structure Row where
  senderEmail : String
  receiverEmail : String
  firstName : String
  company : String
  status : String
  statusMessage : String
  sentAt : Option DateTime
  responds : String
  subject : String
  body : String
deriving DecidableEq

/-- One entry of the `candidates` list built by the row loop. -/
structure Candidate where
  dedupeKey : String
  sender : String
  receiver : String
  emailType : String
  firstName : Option String
  company : Option String
  status : Option String
  statusMessage : Option String
  sentAt : DateTime
  responds : Option String
  subject : Option String
  body : Option String
deriving DecidableEq

/-- One row of `email_send_logs`; `Option String` fields model NULLable text
columns, and `updatedAt = none` models a value that is not a valid datetime
(NULL or a zero-date string), i.e. the `isinstance(..., datetime)` test. -/
structure LogRecord where
  id : Nat
  dedupeKey : String
  senderEmail : String
  receiverEmail : String
  emailType : String
  firstName : Option String
  company : Option String
  status : Option String
  statusMessage : Option String
  sentAt : Option DateTime
  responds : Option String
  subject : Option String
  body : Option String
  updatedAt : Option DateTime
deriving DecidableEq

/-- Result of processing one spreadsheet row inside the candidate-building
loop (lines 197-269 of `email_send_import.py`). -/
structure RowOutcome where
  prefs : Prefs
  skipInc : Nat
  overrideInc : Nat
  candidate : Option Candidate
deriving DecidableEq

/-- One iteration of the candidate-building loop: normalize and validate the
identity fields, upsert the subscription table on an opt-out response, skip
rows without a dedupe key, and apply the unsubscribe override. -/
def processRow (et : String) (prefs : Prefs) (r : Row) : RowOutcome :=
  let sender := norm_email r.senderEmail
  let receiver := norm_email r.receiverEmail
  if sender = "" ∨ receiver = "" then ⟨prefs, 1, 0, none⟩
  else
    let respondsValue := norm_text r.responds
    let isUnsub := is_unsubscribe_response respondsValue
    let prefs1 := if isUnsub then upsertPref prefs (sender, receiver) false else prefs
    let ov1 : Nat := if isUnsub then 1 else 0
    let statusMessage1 :=
      if isUnsub then some "Receiver Unsubscribed via mail" else norm_text r.statusMessage
    match r.sentAt with
    | none => ⟨prefs1, 1, ov1, none⟩
    | some t =>
      let dkey := dedupeDigest sender receiver t et
      let optedOut := lookupPref prefs1 (sender, receiver) = some false
      let ov2 := ov1 + (if optedOut ∧ isUnsub = false then 1 else 0)
      let c : Candidate :=
        { dedupeKey := dkey, sender := sender, receiver := receiver, emailType := et,
          firstName := norm_text r.firstName, company := norm_text r.company,
          status := norm_text r.status,
          statusMessage :=
            if optedOut then some "Receiver Unsubscribed via mail" else statusMessage1,
          sentAt := t,
          responds := if optedOut then some "Unsubscribed" else respondsValue,
          subject := norm_text r.subject, body := norm_text r.body }
      ⟨prefs1, 0, ov2, some c⟩

/-- Accumulated state of the candidate-building loop. -/
structure LoopState where
  prefs : Prefs
  skipped : Nat
  overrides : Nat
  candidates : List Candidate
deriving DecidableEq

def stepRow (et : String) (ls : LoopState) (r : Row) : LoopState :=
  let o := processRow et ls.prefs r
  { prefs := o.prefs, skipped := ls.skipped + o.skipInc,
    overrides := ls.overrides + o.overrideInc,
    candidates := ls.candidates ++ o.candidate.toList }

/-- The whole candidate-building loop over the file. -/
def importLoop (prefs : Prefs) (et : String) (rows : List Row) : LoopState :=
  rows.foldl (stepRow et) ⟨prefs, 0, 0, []⟩

/-- `existing_map` lookup: the batched
`SELECT ... WHERE dedupe_key IN (...)` fills a dictionary keyed by
`dedupe_key`, later fetches overwriting earlier ones, so the lookup returns
the LAST record carrying the key. -/
def findExisting : List LogRecord → String → Option LogRecord
  | [], _ => none
  | rec :: rest, k =>
    match findExisting rest k with
    | some e => some e
    | none => if rec.dedupeKey = k then some rec else none

/-- Python `(a or None)` on a nullable text field: an empty string collapses
to `None` (the `same` helper in `upload_email_send_file`). -/
def pyOrNone (a : Option String) : Option String :=
  match a with
  | some "" => none
  | x => x

/-- `same(a, b)` from `upload_email_send_file`. -/
def sameField (a b : Option String) : Bool := pyOrNone a == pyOrNone b

/-- The changed-field scan over the seven mutable columns. -/
def changedB (ex : LogRecord) (c : Candidate) : Bool :=
  !sameField ex.firstName c.firstName || !sameField ex.company c.company ||
  !sameField ex.status c.status || !sameField ex.statusMessage c.statusMessage ||
  !sameField ex.responds c.responds || !sameField ex.subject c.subject ||
  !sameField ex.body c.body

/-- One tuple of `update_rows` (the SQL `UPDATE ... WHERE id=%s` payload). -/
structure UpdateRow where
  firstName : Option String
  company : Option String
  status : Option String
  statusMessage : Option String
  responds : Option String
  updatedAt : Option DateTime
  subject : Option String
  body : Option String
  id : Nat
deriving DecidableEq

/-- Build the update tuple for an existing record: refresh `updated_at` when
it is missing/invalid or when a data field changed. -/
def mkUpdateRow (now : DateTime) (ex : LogRecord) (c : Candidate) : UpdateRow :=
  { firstName := c.firstName, company := c.company, status := c.status,
    statusMessage := c.statusMessage, responds := c.responds,
    updatedAt := if ex.updatedAt.isSome = false ∨ changedB ex c = true then some now
      else ex.updatedAt,
    subject := c.subject, body := c.body, id := ex.id }

/-- The insert/update/no-op triage accumulated over the candidates. -/
structure ReconOut where
  insertCands : List Candidate
  updateRows : List UpdateRow
  dups : Nat
deriving DecidableEq

def reconStep (logs : List LogRecord) (now : DateTime) (acc : ReconOut) (c : Candidate) :
    ReconOut :=
  match findExisting logs c.dedupeKey with
  | none => { acc with insertCands := acc.insertCands ++ [c] }
  | some ex =>
    if changedB ex c = false ∧ ex.updatedAt.isSome = true then
      { acc with dups := acc.dups + 1 }
    else
      { acc with updateRows := acc.updateRows ++ [mkUpdateRow now ex c] }

/-- The triage pass over all candidates (lines 296-353). -/
def reconcile (logs : List LogRecord) (now : DateTime) (cs : List Candidate) : ReconOut :=
  cs.foldl (reconStep logs now) ⟨[], [], 0⟩

/-- The record written by the batched `INSERT INTO email_send_logs`; the
database assigns the auto-increment `id` and `updated_at` is always set. -/
def mkInsertRec (c : Candidate) (now : DateTime) (id : Nat) : LogRecord :=
  { id := id, dedupeKey := c.dedupeKey, senderEmail := c.sender,
    receiverEmail := c.receiver, emailType := c.emailType, firstName := c.firstName,
    company := c.company, status := c.status, statusMessage := c.statusMessage,
    sentAt := some c.sentAt, responds := c.responds, subject := c.subject,
    body := c.body, updatedAt := some now }

/-- The rows appended by the insert `executemany`, with fresh consecutive ids. -/
def insertedRecords (nextId : Nat) (now : DateTime) : List Candidate → List LogRecord
  | [] => []
  | c :: rest => mkInsertRec c now nextId :: insertedRecords (nextId + 1) now rest

/-- Apply one `UPDATE ... WHERE id=%s` to the table. -/
def applyUpdateOne (u : UpdateRow) (rec : LogRecord) : LogRecord :=
  if rec.id = u.id then
    { rec with
      firstName := u.firstName, company := u.company, status := u.status,
      statusMessage := u.statusMessage, responds := u.responds, updatedAt := u.updatedAt,
      subject := u.subject, body := u.body }
  else rec

/-- The update `executemany`, statement by statement. -/
def applyUpdates (logs : List LogRecord) (us : List UpdateRow) : List LogRecord :=
  us.foldl (fun lg u => lg.map (applyUpdateOne u)) logs

/-- The committed database state seen by the import route. -/
structure ImportState where
  prefs : Prefs
  logs : List LogRecord
  nextId : Nat
deriving DecidableEq

/-- The counters reported in the success payload. -/
structure ImportCounters where
  inserted : Nat
  updated : Nat
  duplicatesNoChange : Nat
  skipped : Nat
  totalRows : Nat
  unsubscribedOverrides : Nat
deriving DecidableEq

/-- One write against `email_send_logs`, in execution order. -/
inductive WriteOp where
  | insertLog (rec : LogRecord)
  | updateLog (u : UpdateRow)
deriving DecidableEq

def WriteOp.isInsert : WriteOp → Bool
  | .insertLog _ => true
  | .updateLog _ => false

/-- Outcome of the request: the success counters plus the journal of
send-log writes in execution order, or an error response. -/
inductive ImportOutcome where
  | ok (c : ImportCounters) (journal : List WriteOp)
  | err (status : Nat) (msg : String)
deriving DecidableEq

/-- Auto-increment ids are unique and below the next fresh id. -/
def ImportState.WF (st : ImportState) : Prop :=
  (st.logs.map LogRecord.id).Nodup ∧ ∀ rec ∈ st.logs, rec.id < st.nextId

/-- `upload_email_send_file` as a pure transaction: given the committed
database, the parsed file rows, the raw `email_type` form value and the
request time, produce the new committed database and the response.  The two
Boolean parameters model the database raising during the insert/update
`executemany`; every error path returns the UNCHANGED input state, which is
the model of `conn.rollback()` (and of closing an uncommitted connection on
the early returns).  File-format and header validation are out of scope and
happen before the `rows` list exists. -/
def doImportF (failInsert failUpdate : Bool) (st : ImportState) (rows : List Row)
    (emailTypeRaw : String) (now : DateTime) : ImportState × ImportOutcome :=
  let et := normType emailTypeRaw
  if ¬(et = "GOLY" ∨ et = "MPLY") then
    (st, .err 400 "Invalid email_type. Use GOLY or MPLY")
  else
    let ls := importLoop st.prefs et rows
    if ls.candidates = [] then
      (st, .err 400 "No valid rows found to insert/update (SentAt missing?)")
    else
      let R := reconcile st.logs now ls.candidates
      if failInsert = true ∧ R.insertCands ≠ [] then
        (st, .err 409 "Import failed (duplicate key)")
      else if failUpdate = true ∧ R.updateRows ≠ [] then
        (st, .err 500 "Import failed")
      else
        let newRecs := insertedRecords st.nextId now R.insertCands
        let logs2 := applyUpdates (st.logs ++ newRecs) R.updateRows
        let st1 : ImportState :=
          { prefs := ls.prefs, logs := logs2, nextId := st.nextId + R.insertCands.length }
        let counters : ImportCounters :=
          { inserted := R.insertCands.length, updated := R.updateRows.length,
            duplicatesNoChange := R.dups, skipped := ls.skipped,
            totalRows := rows.length, unsubscribedOverrides := ls.overrides }
        (st1, .ok counters (newRecs.map .insertLog ++ R.updateRows.map .updateLog))

/-- The import request when the database raises no error. -/
def doImport : ImportState → List Row → String → DateTime → ImportState × ImportOutcome :=
  doImportF false false

/-! ### Preference-table lemmas -/

theorem lookupPref_upsert_self (ps : Prefs) (k : PrefKey) (v : Bool) :
    lookupPref (upsertPref ps k v) k = some v := by
  induction ps with
  | nil => simp [upsertPref, lookupPref]
  | cons p rest ih =>
    obtain ⟨k0, v0⟩ := p
    by_cases h : k0 = k
    · simp [upsertPref, h, lookupPref]
    · simp [upsertPref, h, lookupPref, ih]

theorem lookupPref_upsert_other (ps : Prefs) (k k2 : PrefKey) (v : Bool) (h : k ≠ k2) :
    lookupPref (upsertPref ps k2 v) k = lookupPref ps k := by
  induction ps with
  | nil => simp [upsertPref, lookupPref, Ne.symm h]
  | cons p rest ih =>
    obtain ⟨k0, v0⟩ := p
    by_cases h0 : k0 = k2
    · subst h0
      simp [upsertPref, lookupPref, h, Ne.symm h]
    · by_cases h1 : k0 = k
      · simp [upsertPref, h0, lookupPref, h1, h]
      · simp [upsertPref, h0, lookupPref, h1, ih]

theorem lookupPref_upsert_false_preserve (ps : Prefs) (k k2 : PrefKey)
    (h : lookupPref ps k = some false) :
    lookupPref (upsertPref ps k2 false) k = some false := by
  by_cases e : k = k2
  · subst e; exact lookupPref_upsert_self ps k false
  · rw [lookupPref_upsert_other ps k k2 false e]; exact h

theorem upsertPref_idem (ps : Prefs) (k : PrefKey) (v : Bool) :
    upsertPref (upsertPref ps k v) k v = upsertPref ps k v := by
  induction ps with
  | nil => simp [upsertPref]
  | cons p rest ih =>
    obtain ⟨k0, v0⟩ := p
    by_cases h : k0 = k
    · simp [upsertPref, h]
    · simp [upsertPref, h, ih]

/-! ### Row-processing lemmas -/

/-- The skip test of the candidate loop: missing sender, missing receiver, or
no parseable send timestamp. -/
def rowSkippedB (r : Row) : Bool :=
  norm_email r.senderEmail = "" || norm_email r.receiverEmail = "" || r.sentAt.isNone

theorem processRow_skipInc (et : String) (prefs : Prefs) (r : Row) :
    (processRow et prefs r).skipInc = if rowSkippedB r then 1 else 0 := by
  unfold processRow rowSkippedB
  by_cases hse : norm_email r.senderEmail = "" ∨ norm_email r.receiverEmail = ""
  · rcases hse with h | h <;> simp [h]
  · push_neg at hse
    cases hsent : r.sentAt <;> simp [hse.1, hse.2, hsent]

theorem processRow_candidate_isSome (et : String) (prefs : Prefs) (r : Row) :
    (processRow et prefs r).candidate.isSome = !rowSkippedB r := by
  unfold processRow rowSkippedB
  by_cases hse : norm_email r.senderEmail = "" ∨ norm_email r.receiverEmail = ""
  · rcases hse with h | h <;> simp [h]
  · push_neg at hse
    cases hsent : r.sentAt <;> simp [hse.1, hse.2, hsent]

theorem processRow_prefs_cases (et : String) (prefs : Prefs) (r : Row) :
    (processRow et prefs r).prefs = prefs ∨
    (processRow et prefs r).prefs =
      upsertPref prefs (norm_email r.senderEmail, norm_email r.receiverEmail) false := by
  unfold processRow
  by_cases hse : norm_email r.senderEmail = "" ∨ norm_email r.receiverEmail = ""
  · simp [hse]
  · cases hsent : r.sentAt <;>
      cases hu : is_unsubscribe_response (norm_text r.responds) <;>
      simp [hse, hsent, hu]

theorem processRow_candidate_fields (et : String) (prefs : Prefs) (r : Row) (c : Candidate)
    (h : (processRow et prefs r).candidate = some c) :
    c.sender = norm_email r.senderEmail ∧ c.receiver = norm_email r.receiverEmail ∧
    c.sender ≠ "" ∧ c.receiver ≠ "" ∧ c.emailType = et ∧ r.sentAt = some c.sentAt := by
  unfold processRow at h
  by_cases hse : norm_email r.senderEmail = "" ∨ norm_email r.receiverEmail = ""
  · simp [hse] at h
  · push_neg at hse
    cases hsent : r.sentAt with
    | none => simp [hse.1, hse.2, hsent] at h
    | some t =>
      simp [hse.1, hse.2, hsent] at h
      subst h
      exact ⟨rfl, rfl, hse.1, hse.2, rfl, rfl⟩

theorem stepRow_prefs_def (et : String) (ls : LoopState) (r : Row) :
    (stepRow et ls r).prefs = (processRow et ls.prefs r).prefs := rfl

theorem stepRow_preserves_optout (et : String) (ls : LoopState) (r : Row) (k : PrefKey)
    (h : lookupPref ls.prefs k = some false) :
    lookupPref (stepRow et ls r).prefs k = some false := by
  rw [stepRow_prefs_def]
  rcases processRow_prefs_cases et ls.prefs r with hp | hp
  · rw [hp]; exact h
  · rw [hp]; exact lookupPref_upsert_false_preserve _ _ _ h

theorem foldl_preserves_optout (et : String) (rows : List Row) (ls : LoopState) (k : PrefKey)
    (h : lookupPref ls.prefs k = some false) :
    lookupPref (rows.foldl (stepRow et) ls).prefs k = some false := by
  induction rows generalizing ls with
  | nil => exact h
  | cons r rest ih => exact ih (stepRow et ls r) (stepRow_preserves_optout et ls r k h)

theorem foldl_skipped_mono (et : String) (rows : List Row) (ls : LoopState) :
    ls.skipped ≤ (rows.foldl (stepRow et) ls).skipped := by
  induction rows generalizing ls with
  | nil => exact Nat.le_refl _
  | cons r rest ih =>
    exact Nat.le_trans (Nat.le_add_right _ _) (ih (stepRow et ls r))

/-- A row with usable emails and an opt-out response upserts the pair to
opted-out, whatever else happens to the row. -/
theorem processRow_unsub_prefs (et : String) (prefs : Prefs) (r : Row)
    (hs : norm_email r.senderEmail ≠ "") (hr : norm_email r.receiverEmail ≠ "")
    (hu : is_unsubscribe_response (norm_text r.responds) = true) :
    (processRow et prefs r).prefs =
      upsertPref prefs (norm_email r.senderEmail, norm_email r.receiverEmail) false := by
  unfold processRow
  cases hsent : r.sentAt <;> simp [hs, hr, hu, hsent]

/-- Inversion of a successful import: the success branch of
`upload_email_send_file` fixes every component of the result. -/
theorem doImport_ok_inv (st : ImportState) (rows : List Row) (etRaw : String) (now : DateTime)
    (st1 : ImportState) (c : ImportCounters) (jr : List WriteOp)
    (h : doImport st rows etRaw now = (st1, .ok c jr)) :
    (normType etRaw = "GOLY" ∨ normType etRaw = "MPLY") ∧
    (importLoop st.prefs (normType etRaw) rows).candidates ≠ [] ∧
    st1.prefs = (importLoop st.prefs (normType etRaw) rows).prefs ∧
    st1.logs = applyUpdates
        (st.logs ++ insertedRecords st.nextId now
          (reconcile st.logs now
            (importLoop st.prefs (normType etRaw) rows).candidates).insertCands)
        (reconcile st.logs now
          (importLoop st.prefs (normType etRaw) rows).candidates).updateRows ∧
    st1.nextId = st.nextId +
        (reconcile st.logs now
          (importLoop st.prefs (normType etRaw) rows).candidates).insertCands.length ∧
    c.inserted = (reconcile st.logs now
        (importLoop st.prefs (normType etRaw) rows).candidates).insertCands.length ∧
    c.updated = (reconcile st.logs now
        (importLoop st.prefs (normType etRaw) rows).candidates).updateRows.length ∧
    c.duplicatesNoChange = (reconcile st.logs now
        (importLoop st.prefs (normType etRaw) rows).candidates).dups ∧
    c.skipped = (importLoop st.prefs (normType etRaw) rows).skipped ∧
    c.totalRows = rows.length ∧
    jr = (insertedRecords st.nextId now
        (reconcile st.logs now
          (importLoop st.prefs (normType etRaw) rows).candidates).insertCands).map .insertLog ++
      (reconcile st.logs now
        (importLoop st.prefs (normType etRaw) rows).candidates).updateRows.map .updateLog := by
  unfold doImport doImportF at h
  by_cases het : normType etRaw = "GOLY" ∨ normType etRaw = "MPLY"
  · rw [if_neg (not_not_intro het)] at h
    by_cases hcand : (importLoop st.prefs (normType etRaw) rows).candidates = []
    · rw [if_pos hcand] at h
      injection h with h1 h2
      injection h2
    · rw [if_neg hcand] at h
      rw [if_neg (by simp)] at h
      rw [if_neg (by simp)] at h
      injection h with h1 h2
      injection h2 with hc hj
      subst h1
      subst hc
      subst hj
      exact ⟨het, hcand, rfl, rfl, rfl, rfl, rfl, rfl, rfl, rfl, rfl⟩
  · rw [if_pos het] at h
    injection h with h1 h2
    injection h2

/-- C4: for every import row that becomes a candidate while the subscription
state of its (sender, receiver) pair is opted-out, the candidate's response
is forced to the fixed "Unsubscribed" marker and the fixed status message is
attached, regardless of the response value in the file. -/
theorem optout_pair_forces_unsubscribed_response (et : String) (prefs : Prefs) (r : Row)
    (c : Candidate)
    (hopt : lookupPref prefs (norm_email r.senderEmail, norm_email r.receiverEmail) = some false)
    (hc : (processRow et prefs r).candidate = some c) :
    c.responds = some "Unsubscribed" ∧
    c.statusMessage = some "Receiver Unsubscribed via mail" := by
  have hopt1 : lookupPref
      (if is_unsubscribe_response (norm_text r.responds) = true then
        upsertPref prefs (norm_email r.senderEmail, norm_email r.receiverEmail) false
      else prefs)
      (norm_email r.senderEmail, norm_email r.receiverEmail) = some false := by
    by_cases hu : is_unsubscribe_response (norm_text r.responds) = true
    · simp [hu, lookupPref_upsert_self]
    · simp [hu, hopt]
  unfold processRow at hc
  by_cases hse : norm_email r.senderEmail = "" ∨ norm_email r.receiverEmail = ""
  · simp [hse] at hc
  · push_neg at hse
    cases hsent : r.sentAt with
    | none => simp [hse.1, hse.2, hsent] at hc
    | some t =>
      simp [hse.1, hse.2, hsent, hopt1] at hc
      subst hc
      exact ⟨rfl, rfl⟩

/-- C9: an import row with usable sender and receiver, an opt-out response
("unsubscribed"/"not interested"), and an unparseable send timestamp still
upserts the subscription preference of its pair to opted-out in the committed
state of a successful import, even though the row itself is counted as
skipped: a skipped row can still mutate the subscription table. -/
theorem skipped_optout_row_still_updates_subscription
    (st : ImportState) (rows : List Row) (etRaw : String) (now : DateTime) (r : Row)
    (st1 : ImportState) (c : ImportCounters) (jr : List WriteOp)
    (hmem : r ∈ rows)
    (hs : norm_email r.senderEmail ≠ "") (hrv : norm_email r.receiverEmail ≠ "")
    (hun : is_unsubscribe_response (norm_text r.responds) = true)
    (hsent : r.sentAt = none)
    (h : doImport st rows etRaw now = (st1, .ok c jr)) :
    lookupPref st1.prefs (norm_email r.senderEmail, norm_email r.receiverEmail) = some false ∧
    1 ≤ c.skipped := by
  obtain ⟨-, -, hprefs, -, -, -, -, -, hskip, -, -⟩ :=
    doImport_ok_inv st rows etRaw now st1 c jr h
  obtain ⟨l1, l2, hrows⟩ := List.append_of_mem hmem
  subst hrows
  constructor
  · rw [hprefs]
    unfold importLoop
    rw [List.foldl_append, List.foldl_cons]
    apply foldl_preserves_optout
    rw [stepRow_prefs_def,
      processRow_unsub_prefs (normType etRaw)
        (List.foldl (stepRow (normType etRaw)) ⟨st.prefs, 0, 0, []⟩ l1).prefs r hs hrv hun]
    exact lookupPref_upsert_self _ _ _
  · rw [hskip]
    unfold importLoop
    rw [List.foldl_append, List.foldl_cons]
    refine Nat.le_trans ?_ (foldl_skipped_mono (normType etRaw) l2 _)
    have hstep : (stepRow (normType etRaw)
        (List.foldl (stepRow (normType etRaw)) ⟨st.prefs, 0, 0, []⟩ l1) r).skipped =
      (List.foldl (stepRow (normType etRaw)) ⟨st.prefs, 0, 0, []⟩ l1).skipped +
        (processRow (normType etRaw)
          (List.foldl (stepRow (normType etRaw)) ⟨st.prefs, 0, 0, []⟩ l1).prefs r).skipInc := rfl
    rw [hstep, processRow_skipInc]
    have hb : rowSkippedB r = true := by
      unfold rowSkippedB
      rw [hsent]
      simp
    rw [hb]
    simp

/-! ### Concrete fixtures -/

def rowHello : Row :=
  ⟨"a@x.com", "b@y.com", "", "", "SENT", "", some ⟨2024, 1, 1, 10, 0, 0, 0⟩, "Hello", "", ""⟩

def rowNotInterested : Row :=
  ⟨"a@x.com", "b@y.com", "", "", "SENT", "", some ⟨2024, 1, 1, 11, 0, 0, 0⟩,
   "Not Interested", "", ""⟩

def rowBadDate : Row :=
  ⟨"a@x.com", "b@y.com", "", "", "SENT", "", none, "Unsubscribed", "", ""⟩

def st0 : ImportState := ⟨[], [], 1⟩

def dtNowA : DateTime := ⟨2024, 2, 1, 0, 0, 0, 0⟩

def dtNowB : DateTime := ⟨2024, 2, 2, 0, 0, 0, 0⟩

def prefsOpted : Prefs := [(("a@x.com", "b@y.com"), false)]

/-- The candidate `processRow` builds from `rowHello` when the pair is
already opted out. -/
def candOverridden : Candidate :=
  ⟨"a@x.com|b@y.com|GOLY|2024-01-01 10:00:00", "a@x.com", "b@y.com", "GOLY",
   none, none, some "SENT", some "Receiver Unsubscribed via mail",
   ⟨2024, 1, 1, 10, 0, 0, 0⟩, some "Unsubscribed", none, none⟩

/-- The record inserted for `rowHello` from the empty database. -/
def recHello : LogRecord :=
  ⟨1, "a@x.com|b@y.com|GOLY|2024-01-01 10:00:00", "a@x.com", "b@y.com", "GOLY",
   none, none, some "SENT", none, some ⟨2024, 1, 1, 10, 0, 0, 0⟩, some "Hello",
   none, none, some dtNowA⟩

def st1W : ImportState := ⟨[(("a@x.com", "b@y.com"), false)], [recHello], 2⟩

def countersW9 : ImportCounters := ⟨1, 0, 0, 1, 2, 1⟩

/-- Witness for C4: with the pair opted out, the file row saying "Hello" is
forced to the "Unsubscribed" marker and the fixed status message. -/
theorem optout_pair_forces_unsubscribed_response_witness :
    candOverridden.responds = some "Unsubscribed" ∧
    candOverridden.statusMessage = some "Receiver Unsubscribed via mail" :=
  optout_pair_forces_unsubscribed_response "GOLY" prefsOpted rowHello candOverridden
    (by decide) (by decide)

/-- Witness for C9: a two-row file whose second row has an opt-out response
but no parseable timestamp ends the import with the pair opted out and one
skipped row. -/
theorem skipped_optout_row_still_updates_subscription_witness :
    lookupPref st1W.prefs
      (norm_email rowBadDate.senderEmail, norm_email rowBadDate.receiverEmail) = some false ∧
    1 ≤ countersW9.skipped :=
  skipped_optout_row_still_updates_subscription st0 [rowHello, rowBadDate] "GOLY" dtNowA
    rowBadDate st1W countersW9 [.insertLog recHello]
    (by decide) (by decide) (by decide) (by decide) (by decide) (by decide)

/-! ### Report pagination (`email_report`) -/

/-- `page` after the `if page < 1: page = 1` clamp. -/
def report_page (page : Int) : Int := if page < 1 then 1 else page

/-- `per_page` after the `if per_page < 1: per_page = 10` clamp. -/
def report_per_page (per_page : Int) : Int := if per_page < 1 then 10 else per_page

/-- `offset = (page - 1) * per_page` on the clamped values. -/
def report_offset (page per_page : Int) : Int :=
  (report_page page - 1) * report_per_page per_page

/-- `total_pages = (total_records + per_page - 1) // per_page` (Python floor
division). -/
def report_total_pages (total_records : Nat) (per_page : Int) : Int :=
  Int.fdiv ((total_records : Int) + report_per_page per_page - 1) (report_per_page per_page)

/-- C10: for every report request, a page below 1 is coerced to 1 and a
per_page below 1 is coerced to 10, the computed offset is never negative,
and the total_pages computation divides by the clamped per_page, which is
at least 1 — never zero. -/
theorem report_pagination_safe : ∀ page per_page : Int,
    1 ≤ report_page page ∧ 1 ≤ report_per_page per_page ∧
    0 ≤ report_offset page per_page ∧
    (page < 1 → report_page page = 1) ∧
    (per_page < 1 → report_per_page per_page = 10) ∧
    ∀ total_records : Nat, 0 ≤ report_total_pages total_records per_page := by
  intro page pp
  have h1 : 1 ≤ report_page page := by unfold report_page; split <;> omega
  have h2 : 1 ≤ report_per_page pp := by unfold report_per_page; split <;> omega
  refine ⟨h1, h2, ?_, ?_, ?_, ?_⟩
  · exact mul_nonneg (by omega) (by omega)
  · intro h; unfold report_page; simp [h]
  · intro h; unfold report_per_page; simp [h]
  · intro total
    exact Int.fdiv_nonneg (by omega) (by omega)

/-- Witness for C10 at page 0 and per_page -7. -/
theorem report_pagination_safe_witness : 0 ≤ report_offset 0 (-7) :=
  (report_pagination_safe 0 (-7)).2.2.1

/-! ### Open-tracking pixel (`track_open`, GET `/open.gif`) -/

inductive HttpMethod where
  | GET
  | POST
deriving DecidableEq

inductive HttpResponse where
  | pixel
  | html (page : String)
  | json (status : Nat) (message : String)
  | methodNotAllowed
deriving DecidableEq

/-- One row of the append-only `email_open_events` table. -/
structure OpenEvent where
  senderEmail : String
  receiverEmail : String
  sendKey : String
  openedAt : DateTime
deriving DecidableEq

/-- `_parse_epoch`: a missing or unparseable value collapses to 0 (the
numeric parsing of the query string is elided: the value arrives as `none`
or as the parsed integer). -/
def parse_epoch (val : Option Int) : Int :=
  match val with
  | none => 0
  | some n => n

/-- `track_open` (GET `/open.gif`): `nowEpoch` is `_now_epoch()`, `now` is
`datetime.now()`, and `insertOk = false` models the event insert raising —
the exception is logged and swallowed, the pixel returned regardless. -/
def track_open (k toRaw fromRaw : String) (st : Option Int) (nowEpoch : Int)
    (now : DateTime) (insertOk : Bool) (events : List OpenEvent) :
    List OpenEvent × HttpResponse :=
  let send_key := pyStrip k
  let st_epoch := parse_epoch st
  let receiver := norm_email toRaw
  let sender := norm_email fromRaw
  if send_key = "" then (events, .pixel)
  else if st_epoch ≤ 0 then (events, .pixel)
  else if nowEpoch < st_epoch + 60 then (events, .pixel)
  else if insertOk then (events ++ [⟨sender, receiver, send_key, now⟩], .pixel)
  else (events, .pixel)

/-- C6: the pixel endpoint always answers with the fixed 1x1 image, and an
open event is recorded exactly when the tracking token is non-empty, the
send epoch is positive, at least 60 seconds have elapsed since the send
time, and the insert does not fail; in particular a request less than 60
seconds after the send time never records an event, and an insert failure is
swallowed with the image still returned. -/
theorem track_open_spec (k toRaw fromRaw : String) (st : Option Int) (nowEpoch : Int)
    (now : DateTime) (insertOk : Bool) (events : List OpenEvent) :
    (track_open k toRaw fromRaw st nowEpoch now insertOk events).2 = .pixel ∧
    (track_open k toRaw fromRaw st nowEpoch now insertOk events).1 =
      (if pyStrip k ≠ "" ∧ 0 < parse_epoch st ∧ parse_epoch st + 60 ≤ nowEpoch ∧
          insertOk = true
       then events ++ [⟨norm_email fromRaw, norm_email toRaw, pyStrip k, now⟩]
       else events) := by
  unfold track_open
  by_cases h1 : pyStrip k = ""
  · simp [h1]
  · by_cases h2 : parse_epoch st ≤ 0
    · have : ¬(0 : Int) < parse_epoch st := by omega
      simp [h1, h2, this]
    · by_cases h3 : nowEpoch < parse_epoch st + 60
      · have : ¬parse_epoch st + 60 ≤ nowEpoch := by omega
        simp [h1, h2, h3, this]
      · have h0 : (0 : Int) < parse_epoch st := by omega
        have h60 : parse_epoch st + 60 ≤ nowEpoch := by omega
        cases insertOk <;> simp [h1, h2, h3, h0, h60]

/-! ### Unsubscribe endpoint (`/unsub`) -/

/-- MySQL's default case-insensitive string equality (`_ci` collation), used
for the plain `=` comparisons in the unsubscribe UPDATE's subquery. -/
def ciEq (a b : String) : Bool := pyLower a == pyLower b

/-- Order key realising `ORDER BY sent_at DESC, id DESC` on a nullable
datetime column (NULLs sort last in descending order). -/
def dtOrderKey : Option DateTime → Nat
  | none => 0
  | some t =>
      1 + (((((t.year * 13 + t.month) * 32 + t.day) * 24 + t.hour) * 60 + t.minute) * 60 +
        t.second) * 1000000 + t.usec

/-- The WHERE clause of the unsubscribe UPDATE's subquery: same sender and
receiver, status SENT, and no real response yet. -/
def unsubTargetMatches (sender receiver : String) (rec : LogRecord) : Bool :=
  ciEq rec.senderEmail sender && ciEq rec.receiverEmail receiver &&
  (match rec.status with
   | some s => ciEq s "SENT"
   | none => false) &&
  (match rec.responds with
   | none => true
   | some v => v == "" || ciEq v "No Response Yet")

/-- `SELECT id ... ORDER BY sent_at DESC, id DESC LIMIT 1` over the matching
rows. -/
def pickUnsubTarget (logs : List LogRecord) (sender receiver : String) : Option LogRecord :=
  logs.foldl
    (fun best rec =>
      if unsubTargetMatches sender receiver rec then
        match best with
        | none => some rec
        | some b =>
          if dtOrderKey rec.sentAt > dtOrderKey b.sentAt ∨
              (dtOrderKey rec.sentAt = dtOrderKey b.sentAt ∧ rec.id > b.id) then some rec
          else some b
      else best)
    none

/-- The tracking database state the `/unsub` route touches. -/
structure TrackDb where
  prefs : Prefs
  logs : List LogRecord
deriving DecidableEq

/-- The POST handler of `/unsub` (lines 162-258 of `email_tracking.py`):
normalize the addresses, reject empty ones, upsert the preference pair to
opted-out, and mark the latest SENT-and-unanswered log row in place (no
insert). -/
def unsubscribePost (db : TrackDb) (fromRaw toRaw kRaw : String) (now : DateTime) :
    TrackDb × HttpResponse :=
  let sender := norm_email fromRaw
  let receiver := norm_email toRaw
  if sender = "" ∨ receiver = "" then (db, .json 400 "Missing sender/receiver")
  else
    let prefs1 := upsertPref db.prefs (sender, receiver) false
    let logs1 :=
      match pickUnsubTarget db.logs sender receiver with
      | none => db.logs
      | some target =>
        db.logs.map fun rec =>
          if rec.id = target.id then
            { rec with
              responds := some "UNSUBSCRIBED",
              statusMessage := some "Receiver unsubscribed via link",
              updatedAt := some now }
          else rec
    (⟨prefs1, logs1⟩, .json 200 "Unsubscribed successfully")

/-- The methods the `/unsub` route is registered with: POST only. -/
def unsub_route_methods : List HttpMethod := [.POST]

/-- Flask dispatch for `/unsub`: a method outside the registered list is
answered with 405 Method Not Allowed and the handler never runs. -/
def handle_unsub (m : HttpMethod) (db : TrackDb) (fromRaw toRaw kRaw : String)
    (now : DateTime) : TrackDb × HttpResponse :=
  if m ∈ unsub_route_methods then unsubscribePost db fromRaw toRaw kRaw now
  else (db, .methodNotAllowed)

/-- C7 counterexample: a GET to the unsubscribe endpoint is answered with
405 Method Not Allowed — the route is registered for POST only, so no
confirmation page is rendered (the page builder in the source is never
wired to a route). -/
theorem unsub_get_no_confirmation_page :
    handle_unsub .GET ⟨[], []⟩ "a@x.com" "b@y.com" "" dtEx =
      (⟨[], []⟩, .methodNotAllowed) := by
  decide

/-- C7 (amended): an unsubscribe GET never mutates state — it is rejected
with 405 Method Not Allowed, there being no GET route — while a POST with
valid (non-empty) sender and receiver always sets the pair's subscription
preference to opted-out, and repeating the POST leaves the preference table
unchanged (idempotent). -/
theorem unsub_get_rejected_post_idempotent (db : TrackDb) (f t k k2 : String)
    (now now2 : DateTime)
    (hs : norm_email f ≠ "") (ht : norm_email t ≠ "") :
    handle_unsub .GET db f t k now = (db, .methodNotAllowed) ∧
    lookupPref (handle_unsub .POST db f t k now).1.prefs (norm_email f, norm_email t) =
      some false ∧
    (handle_unsub .POST (handle_unsub .POST db f t k now).1 f t k2 now2).1.prefs =
      (handle_unsub .POST db f t k now).1.prefs := by
  refine ⟨by simp [handle_unsub, unsub_route_methods], ?_, ?_⟩
  · simp [handle_unsub, unsub_route_methods, unsubscribePost, hs, ht,
      lookupPref_upsert_self]
  · simp [handle_unsub, unsub_route_methods, unsubscribePost, hs, ht, upsertPref_idem]

/-- Witness for C7: a concrete POST ends with the pair opted out. -/
theorem unsub_get_rejected_post_idempotent_witness :
    lookupPref (handle_unsub .POST ⟨[], [recHello]⟩ " A@x.com" "b@y.com" "" dtNowB).1.prefs
      (norm_email " A@x.com", norm_email "b@y.com") = some false :=
  (unsub_get_rejected_post_idempotent ⟨[], [recHello]⟩ " A@x.com" "b@y.com" "" ""
    dtNowB dtNowB (by decide) (by decide)).2.1

/-! ### Write ordering and rollback (C8) -/

theorem journal_inserts_first (A : List LogRecord) (B : List UpdateRow) (i j : Nat)
    (hi : i < (A.map WriteOp.insertLog ++ B.map WriteOp.updateLog).length)
    (hj : j < (A.map WriteOp.insertLog ++ B.map WriteOp.updateLog).length)
    (hij : i ≤ j)
    (h : ((A.map WriteOp.insertLog ++ B.map WriteOp.updateLog)[j]).isInsert = true) :
    ((A.map WriteOp.insertLog ++ B.map WriteOp.updateLog)[i]).isInsert = true := by
  have hlen := List.length_append (A.map WriteOp.insertLog) (B.map WriteOp.updateLog)
  have hjA : j < (A.map WriteOp.insertLog).length := by
    by_contra hge
    push_neg at hge
    have hb : j - (A.map WriteOp.insertLog).length < (B.map WriteOp.updateLog).length := by
      rw [hlen] at hj; omega
    rw [List.getElem_append_right hge] at h
    rw [List.getElem_map] at h
    simp [WriteOp.isInsert] at h
  have hiA : i < (A.map WriteOp.insertLog).length := Nat.lt_of_le_of_lt hij hjA
  rw [List.getElem_append_left hiA, List.getElem_map]
  rfl

/-- C8: within one import request all queued inserts are executed before all
queued updates (the write journal is the insert batch followed by the update
batch, committed together), and every failing request — including a database
error raised during either write batch — returns the committed state
unchanged: the rollback leaves the send-log table untouched. -/
theorem import_writes_ordered_and_rollback (failInsert failUpdate : Bool)
    (st : ImportState) (rows : List Row) (etRaw : String) (now : DateTime) :
    (∀ st1 status msg,
      doImportF failInsert failUpdate st rows etRaw now = (st1, .err status msg) →
        st1 = st) ∧
    (∀ st1 c jr,
      doImportF failInsert failUpdate st rows etRaw now = (st1, .ok c jr) →
      ∀ i j : Nat, ∀ hi : i < jr.length, ∀ hj : j < jr.length, i ≤ j →
        (jr[j]).isInsert = true → (jr[i]).isInsert = true) := by
  constructor
  · intro st1 status msg h
    unfold doImportF at h
    by_cases het : normType etRaw = "GOLY" ∨ normType etRaw = "MPLY"
    · rw [if_neg (not_not_intro het)] at h
      by_cases hcand : (importLoop st.prefs (normType etRaw) rows).candidates = []
      · rw [if_pos hcand] at h
        injection h with h1 h2
        exact h1.symm
      · rw [if_neg hcand] at h
        by_cases hf1 : failInsert = true ∧
            (reconcile st.logs now
              (importLoop st.prefs (normType etRaw) rows).candidates).insertCands ≠ []
        · rw [if_pos hf1] at h
          injection h with h1 h2
          exact h1.symm
        · rw [if_neg hf1] at h
          by_cases hf2 : failUpdate = true ∧
              (reconcile st.logs now
                (importLoop st.prefs (normType etRaw) rows).candidates).updateRows ≠ []
          · rw [if_pos hf2] at h
            injection h with h1 h2
            exact h1.symm
          · rw [if_neg hf2] at h
            injection h with h1 h2
            injection h2
    · rw [if_pos het] at h
      injection h with h1 h2
      exact h1.symm
  · intro st1 c jr h
    unfold doImportF at h
    by_cases het : normType etRaw = "GOLY" ∨ normType etRaw = "MPLY"
    · rw [if_neg (not_not_intro het)] at h
      by_cases hcand : (importLoop st.prefs (normType etRaw) rows).candidates = []
      · rw [if_pos hcand] at h
        injection h with h1 h2
        injection h2
      · rw [if_neg hcand] at h
        by_cases hf1 : failInsert = true ∧
            (reconcile st.logs now
              (importLoop st.prefs (normType etRaw) rows).candidates).insertCands ≠ []
        · rw [if_pos hf1] at h
          injection h with h1 h2
          injection h2
        · rw [if_neg hf1] at h
          by_cases hf2 : failUpdate = true ∧
              (reconcile st.logs now
                (importLoop st.prefs (normType etRaw) rows).candidates).updateRows ≠ []
          · rw [if_pos hf2] at h
            injection h with h1 h2
            injection h2
          · rw [if_neg hf2] at h
            injection h with h1 h2
            injection h2 with hc hj
            subst hj
            exact fun i j hi hj hij hins =>
              journal_inserts_first _ _ i j hi hj hij hins
    · rw [if_pos het] at h
      injection h with h1 h2
      injection h2

/-- Witness for C8: with the insert batch failing, importing a fresh row
leaves the committed state unchanged. -/
theorem import_writes_ordered_and_rollback_witness :
    (doImportF true false st0 [rowHello] "GOLY" dtNowA).1 = st0 :=
  (import_writes_ordered_and_rollback true false st0 [rowHello] "GOLY" dtNowA).1
    (doImportF true false st0 [rowHello] "GOLY" dtNowA).1 409
    "Import failed (duplicate key)" (by decide)

/-! ### Closed form of the reconcile pass -/

/-- A candidate with no existing record goes to the insert batch. -/
def insCandP (logs : List LogRecord) (c : Candidate) : Bool :=
  (findExisting logs c.dedupeKey).isNone

/-- A candidate counted as a no-op duplicate: an existing record, no changed
field, and a valid stored `updated_at`. -/
def dupP (logs : List LogRecord) (c : Candidate) : Bool :=
  match findExisting logs c.dedupeKey with
  | none => false
  | some ex => !changedB ex c && ex.updatedAt.isSome

/-- The update row a candidate contributes, if any. -/
def updRowOf (logs : List LogRecord) (now : DateTime) (c : Candidate) : Option UpdateRow :=
  match findExisting logs c.dedupeKey with
  | none => none
  | some ex =>
    if changedB ex c = false ∧ ex.updatedAt.isSome = true then none
    else some (mkUpdateRow now ex c)

theorem reconcile_foldl_closed (logs : List LogRecord) (now : DateTime) :
    ∀ (cs : List Candidate) (acc : ReconOut),
      cs.foldl (reconStep logs now) acc =
        ⟨acc.insertCands ++ cs.filter (insCandP logs),
         acc.updateRows ++ cs.filterMap (updRowOf logs now),
         acc.dups + (cs.filter (dupP logs)).length⟩ := by
  intro cs
  induction cs with
  | nil => intro acc; simp
  | cons c rest ih =>
    intro acc
    rw [List.foldl_cons, ih]
    unfold reconStep
    cases hf : findExisting logs c.dedupeKey with
    | none =>
      simp [insCandP, dupP, updRowOf, hf, List.filter_cons, List.filterMap_cons]
    | some ex =>
      by_cases hd : changedB ex c = false ∧ ex.updatedAt.isSome = true
      · simp [insCandP, dupP, updRowOf, hf, hd.1, hd.2, List.filter_cons,
          List.filterMap_cons]
        omega
      · have hdp : (!changedB ex c && ex.updatedAt.isSome) = false := by
          cases hcb : changedB ex c <;> cases hus : ex.updatedAt.isSome <;> simp_all
        simp [insCandP, dupP, updRowOf, hf, hd, hdp, List.filter_cons, List.filterMap_cons]

/-- The reconcile pass in closed form: inserts, updates and the duplicate
count are a filter / filterMap / count over the candidates. -/
theorem reconcile_eq (logs : List LogRecord) (now : DateTime) (cs : List Candidate) :
    reconcile logs now cs =
      ⟨cs.filter (insCandP logs), cs.filterMap (updRowOf logs now),
       (cs.filter (dupP logs)).length⟩ := by
  unfold reconcile
  rw [reconcile_foldl_closed]
  simp

/-! ### `findExisting` through the write phase -/

theorem findExisting_mem_key (logs : List LogRecord) (k : String) (e : LogRecord)
    (h : findExisting logs k = some e) : e ∈ logs ∧ e.dedupeKey = k := by
  induction logs with
  | nil => simp [findExisting] at h
  | cons rec rest ih =>
    unfold findExisting at h
    cases hr : findExisting rest k with
    | some e2 =>
      rw [hr] at h
      injection h with h
      subst h
      obtain ⟨hm, hk⟩ := ih hr
      exact ⟨List.mem_cons_of_mem _ hm, hk⟩
    | none =>
      rw [hr] at h
      by_cases hk : rec.dedupeKey = k
      · rw [if_pos hk] at h
        injection h with h
        subst h
        exact ⟨List.mem_cons_self _ _, hk⟩
      · rw [if_neg hk] at h
        exact absurd h (by simp)

theorem findExisting_append (l1 l2 : List LogRecord) (k : String) :
    findExisting (l1 ++ l2) k =
      match findExisting l2 k with
      | some e => some e
      | none => findExisting l1 k := by
  induction l1 with
  | nil =>
    rw [List.nil_append]
    cases findExisting l2 k <;> simp [findExisting]
  | cons rec rest ih =>
    rw [List.cons_append]
    have lhs : findExisting (rec :: (rest ++ l2)) k =
        match findExisting (rest ++ l2) k with
        | some e => some e
        | none => if rec.dedupeKey = k then some rec else none := rfl
    rw [lhs, ih]
    cases hl2 : findExisting l2 k with
    | some e => rfl
    | none => rfl

theorem findExisting_map_keyPreserving (f : LogRecord → LogRecord)
    (hf : ∀ rec, (f rec).dedupeKey = rec.dedupeKey) (logs : List LogRecord) (k : String) :
    findExisting (logs.map f) k = (findExisting logs k).map f := by
  induction logs with
  | nil => rfl
  | cons rec rest ih =>
    rw [List.map_cons]
    unfold findExisting
    rw [ih]
    cases findExisting rest k with
    | some e => rfl
    | none =>
      by_cases hk : rec.dedupeKey = k
      · simp [hf rec, hk]
      · simp [hf rec, hk]

theorem findExisting_none_of_no_key (logs : List LogRecord) (k : String)
    (h : ∀ rec ∈ logs, rec.dedupeKey ≠ k) : findExisting logs k = none := by
  induction logs with
  | nil => rfl
  | cons rec rest ih =>
    unfold findExisting
    rw [ih (fun r hr => h r (List.mem_cons_of_mem _ hr))]
    simp [h rec (List.mem_cons_self _ _)]

theorem mkInsertRec_key (c : Candidate) (now : DateTime) (i : Nat) :
    (mkInsertRec c now i).dedupeKey = c.dedupeKey := rfl

theorem mkInsertRec_id (c : Candidate) (now : DateTime) (i : Nat) :
    (mkInsertRec c now i).id = i := rfl

theorem mem_insertedRecords (now : DateTime) (cs : List Candidate) :
    ∀ (nid : Nat) (rec : LogRecord), rec ∈ insertedRecords nid now cs →
      ∃ c ∈ cs, ∃ i, nid ≤ i ∧ rec = mkInsertRec c now i := by
  induction cs with
  | nil => intro nid rec h; simp [insertedRecords] at h
  | cons c rest ih =>
    intro nid rec h
    unfold insertedRecords at h
    rcases List.mem_cons.mp h with h | h
    · exact ⟨c, List.mem_cons_self _ _, nid, Nat.le_refl _, h⟩
    · obtain ⟨c2, hc2, i, hi, hrec⟩ := ih (nid + 1) rec h
      exact ⟨c2, List.mem_cons_of_mem _ hc2, i, by omega, hrec⟩

theorem findExisting_insertedRecords_none (now : DateTime) (cs : List Candidate) (k : String)
    (h : ∀ c ∈ cs, c.dedupeKey ≠ k) :
    ∀ nid, findExisting (insertedRecords nid now cs) k = none := by
  intro nid
  apply findExisting_none_of_no_key
  intro rec hrec
  obtain ⟨c, hc, i, -, hrec⟩ := mem_insertedRecords now cs nid rec hrec
  rw [hrec, mkInsertRec_key]
  exact h c hc

theorem findExisting_insertedRecords_self (now : DateTime) (cs : List Candidate)
    (c : Candidate) (hmem : c ∈ cs)
    (hkeys : cs.Pairwise (fun a b => a.dedupeKey ≠ b.dedupeKey)) :
    ∀ nid, ∃ i, nid ≤ i ∧
      findExisting (insertedRecords nid now cs) c.dedupeKey = some (mkInsertRec c now i) := by
  induction cs with
  | nil => cases hmem
  | cons c0 rest ih =>
    intro nid
    obtain ⟨hhead, htail⟩ := List.pairwise_cons.mp hkeys
    rcases List.mem_cons.mp hmem with hc | hc
    · subst hc
      refine ⟨nid, Nat.le_refl _, ?_⟩
      unfold insertedRecords
      have hnone : findExisting (insertedRecords (nid + 1) now rest) c.dedupeKey = none :=
        findExisting_insertedRecords_none now rest c.dedupeKey
          (fun c2 hc2 => (hhead c2 hc2).symm) (nid + 1)
      unfold findExisting
      rw [hnone]
      simp [mkInsertRec_key]
    · obtain ⟨i, hi, hfind⟩ := ih hc htail (nid + 1)
      refine ⟨i, by omega, ?_⟩
      unfold insertedRecords findExisting
      rw [hfind]

/-! ### The update batch as a map -/

/-- The effect of the whole update batch on one record. -/
def applyAllUpd (us : List UpdateRow) (rec : LogRecord) : LogRecord :=
  us.foldl (fun r u => applyUpdateOne u r) rec

theorem applyAllUpd_cons (u : UpdateRow) (us : List UpdateRow) (rec : LogRecord) :
    applyAllUpd (u :: us) rec = applyAllUpd us (applyUpdateOne u rec) := rfl

theorem applyUpdates_eq_map (us : List UpdateRow) :
    ∀ logs : List LogRecord, applyUpdates logs us = logs.map (applyAllUpd us) := by
  induction us with
  | nil =>
    intro logs
    have : applyAllUpd [] = fun rec => rec := rfl
    simp [applyUpdates, this]
  | cons u rest ih =>
    intro logs
    have h1 : applyUpdates logs (u :: rest) =
        applyUpdates (logs.map (applyUpdateOne u)) rest := rfl
    rw [h1, ih, List.map_map]
    rfl

theorem applyUpdateOne_preserves (u : UpdateRow) (rec : LogRecord) :
    (applyUpdateOne u rec).id = rec.id ∧
    (applyUpdateOne u rec).dedupeKey = rec.dedupeKey ∧
    (applyUpdateOne u rec).senderEmail = rec.senderEmail ∧
    (applyUpdateOne u rec).receiverEmail = rec.receiverEmail ∧
    (applyUpdateOne u rec).sentAt = rec.sentAt := by
  unfold applyUpdateOne
  split <;> simp

theorem applyAllUpd_preserves (us : List UpdateRow) :
    ∀ rec : LogRecord,
      (applyAllUpd us rec).id = rec.id ∧
      (applyAllUpd us rec).dedupeKey = rec.dedupeKey ∧
      (applyAllUpd us rec).senderEmail = rec.senderEmail ∧
      (applyAllUpd us rec).receiverEmail = rec.receiverEmail ∧
      (applyAllUpd us rec).sentAt = rec.sentAt := by
  induction us with
  | nil => intro rec; exact ⟨rfl, rfl, rfl, rfl, rfl⟩
  | cons u rest ih =>
    intro rec
    rw [applyAllUpd_cons]
    obtain ⟨e1, e2, e3, e4, e5⟩ := ih (applyUpdateOne u rec)
    obtain ⟨f1, f2, f3, f4, f5⟩ := applyUpdateOne_preserves u rec
    exact ⟨e1.trans f1, e2.trans f2, e3.trans f3, e4.trans f4, e5.trans f5⟩

theorem applyUpdateOne_skip (u : UpdateRow) (rec : LogRecord) (h : rec.id ≠ u.id) :
    applyUpdateOne u rec = rec := by
  unfold applyUpdateOne
  rw [if_neg h]

theorem applyAllUpd_skip (us : List UpdateRow) :
    ∀ rec : LogRecord, (∀ u ∈ us, u.id ≠ rec.id) → applyAllUpd us rec = rec := by
  induction us with
  | nil => intro rec _; rfl
  | cons u rest ih =>
    intro rec h
    rw [applyAllUpd_cons,
      applyUpdateOne_skip u rec (fun he => h u (List.mem_cons_self _ _) he.symm)]
    exact ih rec (fun v hv => h v (List.mem_cons_of_mem _ hv))

theorem applyAllUpd_single (us : List UpdateRow) :
    ∀ (u : UpdateRow) (rec : LogRecord),
      us.Pairwise (fun a b => a.id ≠ b.id) → u ∈ us → u.id = rec.id →
      applyAllUpd us rec = applyUpdateOne u rec := by
  induction us with
  | nil => intro u rec _ hmem; cases hmem
  | cons v rest ih =>
    intro u rec hnd hmem hid
    obtain ⟨hhead, htail⟩ := List.pairwise_cons.mp hnd
    rcases List.mem_cons.mp hmem with he | he
    · subst he
      rw [applyAllUpd_cons]
      apply applyAllUpd_skip
      intro w hw
      obtain ⟨p1, -⟩ := applyUpdateOne_preserves u rec
      rw [p1]
      rw [← hid]
      exact (hhead w hw).symm
    · have hvrec : rec.id ≠ v.id := by
        rw [← hid]
        exact fun he2 => (hhead u he) he2.symm
      rw [applyAllUpd_cons, applyUpdateOne_skip v rec hvrec]
      exact ih u rec htail he hid

/-! ### Loop counting and candidate invariants -/

theorem processRow_skip_plus_cand (et : String) (prefs : Prefs) (r : Row) :
    (processRow et prefs r).skipInc + (processRow et prefs r).candidate.toList.length = 1 := by
  unfold processRow
  by_cases hse : norm_email r.senderEmail = "" ∨ norm_email r.receiverEmail = ""
  · simp [hse]
  · push_neg at hse
    cases hsent : r.sentAt <;> simp [hse.1, hse.2, hsent]

theorem stepRow_skipped_def (et : String) (ls : LoopState) (r : Row) :
    (stepRow et ls r).skipped = ls.skipped + (processRow et ls.prefs r).skipInc := rfl

theorem stepRow_candidates_def (et : String) (ls : LoopState) (r : Row) :
    (stepRow et ls r).candidates =
      ls.candidates ++ (processRow et ls.prefs r).candidate.toList := rfl

theorem foldl_count_invariant (et : String) (rows : List Row) :
    ∀ ls : LoopState,
      (rows.foldl (stepRow et) ls).skipped +
        (rows.foldl (stepRow et) ls).candidates.length =
      ls.skipped + ls.candidates.length + rows.length := by
  induction rows with
  | nil => intro ls; simp
  | cons r rest ih =>
    intro ls
    rw [List.foldl_cons, ih]
    rw [stepRow_skipped_def, stepRow_candidates_def, List.length_append]
    have := processRow_skip_plus_cand et ls.prefs r
    simp only [List.length_cons]
    omega

theorem foldl_skipped_filter (et : String) (rows : List Row) :
    ∀ ls : LoopState,
      (rows.foldl (stepRow et) ls).skipped =
        ls.skipped + (rows.filter rowSkippedB).length := by
  induction rows with
  | nil => intro ls; simp
  | cons r rest ih =>
    intro ls
    rw [List.foldl_cons, ih, stepRow_skipped_def, processRow_skipInc, List.filter_cons]
    cases hb : rowSkippedB r <;> simp [hb] <;> omega

theorem foldl_candidates_inv (et : String) (rows : List Row) :
    ∀ ls : LoopState, ∀ c ∈ (rows.foldl (stepRow et) ls).candidates,
      c ∈ ls.candidates ∨ (c.sender ≠ "" ∧ c.receiver ≠ "") := by
  induction rows with
  | nil => intro ls c hc; exact Or.inl hc
  | cons r rest ih =>
    intro ls c hc
    rw [List.foldl_cons] at hc
    rcases ih (stepRow et ls r) c hc with hmem | hok
    · rw [stepRow_candidates_def] at hmem
      rcases List.mem_append.mp hmem with h | h
      · exact Or.inl h
      · right
        cases hc2 : (processRow et ls.prefs r).candidate with
        | none => rw [hc2] at h; cases h
        | some c3 =>
          rw [hc2] at h
          simp at h
          subst h
          obtain ⟨-, -, h3, h4, -, -⟩ := processRow_candidate_fields et ls.prefs r c hc2
          exact ⟨h3, h4⟩
    · exact Or.inr hok

/-- C5: in every successful import, the skipped counter counts exactly the
rows missing a non-empty sender email, a non-empty receiver email, or a
parseable send timestamp, and every record the import adds to the send-log
table (the records with fresh ids) comes from a valid row: it carries a
non-empty sender, a non-empty receiver and a parsed timestamp — an invalid
row is never inserted. -/
theorem invalid_rows_skipped_never_inserted
    (st : ImportState) (rows : List Row) (etRaw : String) (now : DateTime)
    (st1 : ImportState) (c : ImportCounters) (jr : List WriteOp)
    (hwf : st.WF)
    (h : doImport st rows etRaw now = (st1, .ok c jr)) :
    c.skipped = (rows.filter rowSkippedB).length ∧
    ∀ rec ∈ st1.logs, st.nextId ≤ rec.id →
      rec.senderEmail ≠ "" ∧ rec.receiverEmail ≠ "" ∧ rec.sentAt.isSome = true := by
  obtain ⟨-, -, -, hlogs, -, -, -, -, hskip, -, -⟩ :=
    doImport_ok_inv st rows etRaw now st1 c jr h
  constructor
  · rw [hskip]
    unfold importLoop
    rw [foldl_skipped_filter (normType etRaw) rows ⟨st.prefs, 0, 0, []⟩]
    simp
  · intro rec hrec hid
    rw [hlogs, applyUpdates_eq_map] at hrec
    obtain ⟨rec0, hrec0, hmap⟩ := List.mem_map.mp hrec
    obtain ⟨p1, -, p3, p4, p5⟩ := applyAllUpd_preserves
      (reconcile st.logs now
        (importLoop st.prefs (normType etRaw) rows).candidates).updateRows rec0
    subst hmap
    rcases List.mem_append.mp hrec0 with hmem | hmem
    · exfalso
      have hlt := hwf.2 rec0 hmem
      rw [p1] at hid
      omega
    · obtain ⟨c2, hc2, i, hi, hrec0eq⟩ := mem_insertedRecords now _ st.nextId rec0 hmem
      have hcands : c2 ∈ (importLoop st.prefs (normType etRaw) rows).candidates := by
        rw [reconcile_eq] at hc2
        exact List.mem_of_mem_filter hc2
      have hv := foldl_candidates_inv (normType etRaw) rows ⟨st.prefs, 0, 0, []⟩ c2 hcands
      rcases hv with hin | hok
      · cases hin
      · subst hrec0eq
        refine ⟨?_, ?_, ?_⟩
        · rw [p3]; exact hok.1
        · rw [p4]; exact hok.2
        · rw [p5]; rfl

/-- Witness for C5: in the two-row concrete import, exactly the row with the
unparseable timestamp is counted as skipped. -/
theorem invalid_rows_skipped_never_inserted_witness :
    countersW9.skipped = ([rowHello, rowBadDate].filter rowSkippedB).length :=
  (invalid_rows_skipped_never_inserted st0 [rowHello, rowBadDate] "GOLY" dtNowA
    st1W countersW9 [.insertLog recHello] (by simp [ImportState.WF, st0]) (by decide)).1

/-! ### Re-import machinery (C1) -/

theorem processRow_prefs_noUnsub (et : String) (prefs : Prefs) (r : Row)
    (h : is_unsubscribe_response (norm_text r.responds) = false) :
    (processRow et prefs r).prefs = prefs := by
  unfold processRow
  by_cases hse : norm_email r.senderEmail = "" ∨ norm_email r.receiverEmail = ""
  · simp [hse]
  · cases hsent : r.sentAt <;> simp [hse, h, hsent]

/-- A file with no opt-out responses leaves the preference table untouched. -/
theorem foldl_prefs_noUnsub (et : String) (rows : List Row)
    (h : ∀ r ∈ rows, is_unsubscribe_response (norm_text r.responds) = false) :
    ∀ ls : LoopState, (rows.foldl (stepRow et) ls).prefs = ls.prefs := by
  induction rows with
  | nil => intro ls; rfl
  | cons r rest ih =>
    intro ls
    rw [List.foldl_cons, ih (fun r2 h2 => h r2 (List.mem_cons_of_mem _ h2)),
      stepRow_prefs_def]
    exact processRow_prefs_noUnsub et ls.prefs r (h r (List.mem_cons_self _ _))

theorem sameField_refl (a : Option String) : sameField a a = true := by
  simp [sameField]

/-- A candidate is settled on a table when its existing record matches it
with no changed field and a valid `updated_at`: re-reconciling it is a
no-op duplicate. -/
def Settled (logs : List LogRecord) (c : Candidate) : Prop :=
  ∃ e, findExisting logs c.dedupeKey = some e ∧ changedB e c = false ∧
    e.updatedAt.isSome = true

theorem reconcile_settled (logs : List LogRecord) (now : DateTime) (cs : List Candidate)
    (h : ∀ c ∈ cs, Settled logs c) :
    reconcile logs now cs = ⟨[], [], cs.length⟩ := by
  rw [reconcile_eq]
  have h1 : cs.filter (insCandP logs) = [] := by
    rw [List.filter_eq_nil]
    intro c hc
    obtain ⟨e, hf, -, -⟩ := h c hc
    simp [insCandP, hf]
  have h2 : cs.filterMap (updRowOf logs now) = [] := by
    rw [List.filterMap_eq_nil]
    intro c hc
    obtain ⟨e, hf, hch, hupd⟩ := h c hc
    simp [updRowOf, hf, hch, hupd]
  have h3 : cs.filter (dupP logs) = cs := by
    rw [List.filter_eq_self]
    intro c hc
    obtain ⟨e, hf, hch, hupd⟩ := h c hc
    simp [dupP, hf, hch, hupd]
  rw [h1, h2, h3]

theorem updRowOf_spec (logs : List LogRecord) (now : DateTime) (c : Candidate)
    (u : UpdateRow) (h : updRowOf logs now c = some u) :
    ∃ ex, findExisting logs c.dedupeKey = some ex ∧ u = mkUpdateRow now ex c ∧
      u.id = ex.id := by
  unfold updRowOf at h
  cases hf : findExisting logs c.dedupeKey with
  | none =>
    rw [hf] at h
    exact Option.noConfusion h
  | some ex =>
    rw [hf] at h
    have h2 : (if changedB ex c = false ∧ ex.updatedAt.isSome = true then none
        else some (mkUpdateRow now ex c)) = some u := h
    by_cases hd : changedB ex c = false ∧ ex.updatedAt.isSome = true
    · rw [if_pos hd] at h2; cases h2
    · rw [if_neg hd] at h2
      injection h2 with h2
      subst h2
      exact ⟨ex, rfl, rfl, rfl⟩

theorem pairwise_filterMap {α β : Type} (R : α → α → Prop) (S : β → β → Prop)
    (f : α → Option β) (l : List α) (hl : l.Pairwise R)
    (h : ∀ a b, R a b → ∀ u v, f a = some u → f b = some v → S u v) :
    (l.filterMap f).Pairwise S := by
  induction l with
  | nil => constructor
  | cons a rest ih =>
    obtain ⟨hhead, htail⟩ := List.pairwise_cons.mp hl
    rw [List.filterMap_cons]
    cases hfa : f a with
    | none => exact ih htail
    | some u =>
      rw [List.pairwise_cons]
      refine ⟨?_, ih htail⟩
      intro v hv
      obtain ⟨b, hb, hfb⟩ := List.mem_filterMap.mp hv
      exact h a b (hhead b hb) u v hfa hfb

theorem eq_of_mem_pairwise_keys :
    ∀ cs : List Candidate, cs.Pairwise (fun a b => a.dedupeKey ≠ b.dedupeKey) →
      ∀ a ∈ cs, ∀ b ∈ cs, a.dedupeKey = b.dedupeKey → a = b := by
  intro cs
  induction cs with
  | nil => intro _ a ha; cases ha
  | cons x rest ih =>
    intro hkeys a ha b hb hk
    obtain ⟨hhead, htail⟩ := List.pairwise_cons.mp hkeys
    rcases List.mem_cons.mp ha with rfl | ha2
    · rcases List.mem_cons.mp hb with rfl | hb2
      · rfl
      · exact absurd hk (hhead b hb2)
    · rcases List.mem_cons.mp hb with rfl | hb2
      · exact absurd hk.symm (hhead a ha2)
      · exact ih htail a ha2 b hb2 hk

theorem updateRows_pairwise_ids (logs : List LogRecord) (now : DateTime)
    (cs : List Candidate)
    (hkeys : cs.Pairwise (fun a b => a.dedupeKey ≠ b.dedupeKey))
    (hnodup : (logs.map LogRecord.id).Nodup) :
    (cs.filterMap (updRowOf logs now)).Pairwise (fun a b => a.id ≠ b.id) := by
  apply pairwise_filterMap _ _ _ _ hkeys
  intro a b hab u v hu hv hid
  obtain ⟨ea, hfa, -, hua⟩ := updRowOf_spec logs now a u hu
  obtain ⟨eb, hfb, -, hvb⟩ := updRowOf_spec logs now b v hv
  obtain ⟨hma, hka⟩ := findExisting_mem_key logs _ ea hfa
  obtain ⟨hmb, hkb⟩ := findExisting_mem_key logs _ eb hfb
  have heq : ea = eb :=
    List.inj_on_of_nodup_map hnodup hma hmb (by rw [← hua, ← hvb, hid])
  exact hab (by rw [← hka, ← hkb, heq])

theorem changedB_mkInsertRec (c : Candidate) (now : DateTime) (i : Nat) :
    changedB (mkInsertRec c now i) c = false := by
  simp [changedB, mkInsertRec, sameField_refl]

theorem applyUpdateOne_mkUpdateRow (now : DateTime) (e : LogRecord) (c : Candidate) :
    changedB (applyUpdateOne (mkUpdateRow now e c) e) c = false ∧
    (applyUpdateOne (mkUpdateRow now e c) e).updatedAt.isSome = true := by
  unfold applyUpdateOne
  rw [if_pos (show e.id = (mkUpdateRow now e c).id from rfl)]
  constructor
  · simp [changedB, mkUpdateRow, sameField_refl]
  · show (mkUpdateRow now e c).updatedAt.isSome = true
    unfold mkUpdateRow
    by_cases h : e.updatedAt.isSome = false ∨ changedB e c = true
    · rcases h with h | h
      · have hn : e.updatedAt = none := by
          cases hu : e.updatedAt
          · rfl
          · rw [hu] at h; cases h
        simp [hn]
      · simp [h]
    · push_neg at h
      have h1 : e.updatedAt.isSome = true := by
        cases hu : e.updatedAt.isSome
        · exact absurd hu h.1
        · rfl
      simp [h1, h.2]

/-- After a successful import, every candidate of the batch is settled on the
resulting table: its record exists, matches its fields, and carries a valid
`updated_at`. -/
theorem settled_after_import (logs : List LogRecord) (nextId : Nat) (now : DateTime)
    (cs : List Candidate)
    (hnodup : (logs.map LogRecord.id).Nodup)
    (hid : ∀ rec ∈ logs, rec.id < nextId)
    (hkeys : cs.Pairwise (fun a b => a.dedupeKey ≠ b.dedupeKey)) :
    ∀ c ∈ cs,
      Settled
        (applyUpdates
          (logs ++ insertedRecords nextId now (reconcile logs now cs).insertCands)
          (reconcile logs now cs).updateRows) c := by
  intro c hc
  rw [reconcile_eq]
  show Settled
    (applyUpdates (logs ++ insertedRecords nextId now (cs.filter (insCandP logs)))
      (cs.filterMap (updRowOf logs now))) c
  rw [applyUpdates_eq_map]
  have hkey_pres : ∀ rec, (applyAllUpd (cs.filterMap (updRowOf logs now)) rec).dedupeKey =
      rec.dedupeKey := fun rec => (applyAllUpd_preserves _ rec).2.1
  have hupd_lt : ∀ u ∈ cs.filterMap (updRowOf logs now), u.id < nextId := by
    intro u hu
    obtain ⟨b, hb, hfb⟩ := List.mem_filterMap.mp hu
    obtain ⟨eb, hfeb, -, hub⟩ := updRowOf_spec logs now b u hfb
    obtain ⟨hmb, -⟩ := findExisting_mem_key logs _ eb hfeb
    rw [hub]
    exact hid eb hmb
  cases hfa : findExisting logs c.dedupeKey with
  | none =>
    have hcf : c ∈ cs.filter (insCandP logs) :=
      List.mem_filter.mpr ⟨hc, by simp [insCandP, hfa]⟩
    have hkf : (cs.filter (insCandP logs)).Pairwise
        (fun a b => a.dedupeKey ≠ b.dedupeKey) :=
      List.Pairwise.sublist (List.filter_sublist _) hkeys
    obtain ⟨i, hi, hfind⟩ :=
      findExisting_insertedRecords_self now (cs.filter (insCandP logs)) c hcf hkf nextId
    have happ : findExisting
        (logs ++ insertedRecords nextId now (cs.filter (insCandP logs))) c.dedupeKey =
        some (mkInsertRec c now i) := by
      rw [findExisting_append, hfind]
    have hskipu : applyAllUpd (cs.filterMap (updRowOf logs now)) (mkInsertRec c now i) =
        mkInsertRec c now i := by
      apply applyAllUpd_skip
      intro u hu
      have := hupd_lt u hu
      rw [mkInsertRec_id]
      omega
    refine ⟨mkInsertRec c now i, ?_, changedB_mkInsertRec c now i, rfl⟩
    rw [findExisting_map_keyPreserving _ hkey_pres, happ, Option.map_some', hskipu]
  | some e =>
    obtain ⟨hme, hke⟩ := findExisting_mem_key logs _ e hfa
    have hnew_none : findExisting
        (insertedRecords nextId now (cs.filter (insCandP logs))) c.dedupeKey = none := by
      apply findExisting_insertedRecords_none
      intro c2 hc2 hkeq
      obtain ⟨hc2cs, hc2p⟩ := List.mem_filter.mp hc2
      have he2 : c2 = c := eq_of_mem_pairwise_keys cs hkeys c2 hc2cs c hc hkeq
      subst he2
      simp [insCandP, hfa] at hc2p
    have happ : findExisting
        (logs ++ insertedRecords nextId now (cs.filter (insCandP logs))) c.dedupeKey =
        some e := by
      rw [findExisting_append, hnew_none, hfa]
    by_cases hdup : changedB e c = false ∧ e.updatedAt.isSome = true
    · have hskipe : applyAllUpd (cs.filterMap (updRowOf logs now)) e = e := by
        apply applyAllUpd_skip
        intro u hu hue
        obtain ⟨b, hb, hfb⟩ := List.mem_filterMap.mp hu
        obtain ⟨eb, hfeb, -, hub⟩ := updRowOf_spec logs now b u hfb
        obtain ⟨hmb, hkb⟩ := findExisting_mem_key logs _ eb hfeb
        have hebe : eb = e := List.inj_on_of_nodup_map hnodup hmb hme (by rw [← hub, hue])
        have hbc : b = c :=
          eq_of_mem_pairwise_keys cs hkeys b hb c hc (by rw [← hkb, hebe, hke])
        subst hbc
        simp [updRowOf, hfa, hdup.1, hdup.2] at hfb
      refine ⟨e, ?_, hdup.1, hdup.2⟩
      rw [findExisting_map_keyPreserving _ hkey_pres, happ, Option.map_some', hskipe]
    · have hfb : updRowOf logs now c = some (mkUpdateRow now e c) := by
        simp [updRowOf, hfa, hdup]
      have hmem_u : mkUpdateRow now e c ∈ cs.filterMap (updRowOf logs now) :=
        List.mem_filterMap.mpr ⟨c, hc, hfb⟩
      have hpw := updateRows_pairwise_ids logs now cs hkeys hnodup
      have hsingle : applyAllUpd (cs.filterMap (updRowOf logs now)) e =
          applyUpdateOne (mkUpdateRow now e c) e :=
        applyAllUpd_single _ (mkUpdateRow now e c) e hpw hmem_u rfl
      obtain ⟨hch2, hupd2⟩ := applyUpdateOne_mkUpdateRow now e c
      refine ⟨applyUpdateOne (mkUpdateRow now e c) e, ?_, hch2, hupd2⟩
      rw [findExisting_map_keyPreserving _ hkey_pres, happ, Option.map_some', hsingle]

/-- C1 (amended): re-importing the same unchanged file a second time yields
zero inserts, zero updates, and a no-op-duplicate count equal to the number
of valid rows — for every file whose first import succeeded, provided no
row's response value is an opt-out signal (which would feed back through the
subscription table and rewrite earlier rows on re-import) and the valid
rows' dedupe keys are pairwise distinct; the database state is unchanged by
the re-import. -/
theorem reimport_unchanged_file_noop
    (st : ImportState) (rows : List Row) (etRaw : String) (now now2 : DateTime)
    (hwf : st.WF)
    (hnou : ∀ r ∈ rows, is_unsubscribe_response (norm_text r.responds) = false)
    (hkeys : (importLoop st.prefs (normType etRaw) rows).candidates.Pairwise
      (fun a b => a.dedupeKey ≠ b.dedupeKey))
    (st1 : ImportState) (c1 : ImportCounters) (j1 : List WriteOp)
    (h1 : doImport st rows etRaw now = (st1, .ok c1 j1)) :
    ∃ c2 j2, doImport st1 rows etRaw now2 = (st1, .ok c2 j2) ∧
      c2.inserted = 0 ∧ c2.updated = 0 ∧
      c2.duplicatesNoChange + c2.skipped = rows.length := by
  obtain ⟨p1, lg1, ni1⟩ := st1
  obtain ⟨het, hcand, hprefs, hlogs, hnext, -, -, -, -, -, -⟩ :=
    doImport_ok_inv st rows etRaw now ⟨p1, lg1, ni1⟩ c1 j1 h1
  have hlsprefs : (importLoop st.prefs (normType etRaw) rows).prefs = st.prefs := by
    unfold importLoop
    exact foldl_prefs_noUnsub (normType etRaw) rows hnou ⟨st.prefs, 0, 0, []⟩
  have hp2 : p1 = st.prefs := by
    have : (⟨p1, lg1, ni1⟩ : ImportState).prefs = p1 := rfl
    rw [← this, hprefs, hlsprefs]
  have hsettled : ∀ c ∈ (importLoop st.prefs (normType etRaw) rows).candidates,
      Settled lg1 c := by
    intro c hc
    have hl : (⟨p1, lg1, ni1⟩ : ImportState).logs = lg1 := rfl
    rw [← hl, hlogs]
    exact settled_after_import st.logs st.nextId now
      (importLoop st.prefs (normType etRaw) rows).candidates hwf.1 hwf.2 hkeys c hc
  have hR2 : reconcile lg1 now2 (importLoop st.prefs (normType etRaw) rows).candidates =
      ⟨[], [], (importLoop st.prefs (normType etRaw) rows).candidates.length⟩ :=
    reconcile_settled _ _ _ hsettled
  have hcount : (importLoop st.prefs (normType etRaw) rows).skipped +
      (importLoop st.prefs (normType etRaw) rows).candidates.length = rows.length := by
    unfold importLoop
    have := foldl_count_invariant (normType etRaw) rows ⟨st.prefs, 0, 0, []⟩
    simpa using this
  refine ⟨⟨0, 0, (importLoop st.prefs (normType etRaw) rows).candidates.length,
      (importLoop st.prefs (normType etRaw) rows).skipped, rows.length,
      (importLoop st.prefs (normType etRaw) rows).overrides⟩, [], ?_, rfl, rfl, ?_⟩
  · unfold doImport doImportF
    have hpp : (⟨p1, lg1, ni1⟩ : ImportState).prefs = st.prefs := hp2
    rw [hpp]
    rw [if_neg (not_not_intro het)]
    rw [if_neg hcand]
    rw [if_neg (by simp)]
    rw [if_neg (by simp)]
    have hll : (⟨p1, lg1, ni1⟩ : ImportState).logs = lg1 := rfl
    rw [hll, hR2]
    simp [insertedRecords, applyUpdates, hlsprefs, hp2]
  · show (importLoop st.prefs (normType etRaw) rows).candidates.length +
        (importLoop st.prefs (normType etRaw) rows).skipped = rows.length
    omega

/-- Extract the success counters of an import outcome. -/
def outcomeCounters : ImportOutcome → Option ImportCounters
  | .ok c _ => some c
  | .err _ _ => none

/-- C1 counterexample: after a successful first import of a two-row file,
re-importing the very same file produces ONE update and only ONE
no-op duplicate (instead of zero updates and two duplicates): the second
row's "Not Interested" response opted the pair out during the first import,
so on re-import the first row's response is forced to "Unsubscribed", which
differs from the stored "Hello" and queues an update. -/
theorem reimport_unchanged_file_not_noop :
    outcomeCounters (doImport st0 [rowHello, rowNotInterested] "GOLY" dtNowA).2 =
      some ⟨2, 0, 0, 0, 2, 1⟩ ∧
    outcomeCounters
        (doImport (doImport st0 [rowHello, rowNotInterested] "GOLY" dtNowA).1
          [rowHello, rowNotInterested] "GOLY" dtNowB).2 =
      some ⟨0, 1, 1, 0, 2, 2⟩ := by
  constructor
  · decide
  · decide

/-- The database state after importing just `rowHello` into the empty
database. -/
def st1Hello : ImportState := ⟨[], [recHello], 2⟩

/-- Witness for C1: re-importing the one-row file (no opt-out responses,
distinct keys) inserts nothing, updates nothing, and counts the single valid
row as a no-op duplicate. -/
theorem reimport_unchanged_file_noop_witness :
    ∃ c2 j2, doImport st1Hello [rowHello] "GOLY" dtNowB = (st1Hello, .ok c2 j2) ∧
      c2.inserted = 0 ∧ c2.updated = 0 ∧
      c2.duplicatesNoChange + c2.skipped = 1 :=
  reimport_unchanged_file_noop st0 [rowHello] "GOLY" dtNowA dtNowB
    (by simp [ImportState.WF, st0]) (by decide) (by decide)
    st1Hello ⟨1, 0, 0, 0, 1, 0⟩ [.insertLog recHello] (by decide)
